import Mathlib

/-!
Verification of the relationship-graph traversal and risk-analysis engine of
an OT asset-inventory system.  The definitions below are a shallow embedding
of the Python source (`utils/graph.py` and `tools/analysis.py`): the SQLite
store is modelled as lists of rows, SQL point queries become list filters and
finds, and the imperative BFS loops become fuel-indexed tail-recursive
functions (the fuel bound below is large enough for every run that the
source's terminating loops perform; all safety theorems hold for every fuel).
-/

/-- A row of the `assets` table (the columns the analysis core reads).
`criticality` and `process_area_id` are nullable in the schema. -/
structure Asset where
  id : String
  name : String
  type : String
  criticality : Option String
  process_area_id : Option String
  function : Option String
deriving DecidableEq, Repr

/-- A row of the `relationships` table (the columns the analysis core reads).
`description` is nullable in the schema. -/
structure Relationship where
  id : String
  source_asset_id : String
  target_asset_id : String
  relationship_type : String
  verified : Bool
  inferred : Bool
  description : Option String
deriving DecidableEq, Repr

/-- A row of the `process_areas` table (the columns the analysis core reads). -/
structure ProcessArea where
  id : String
  name : String
deriving DecidableEq, Repr

/-- A snapshot of the relational store visible to one analysis call. -/
structure Store where
  assets : List Asset
  relationships : List Relationship
  process_areas : List ProcessArea
deriving DecidableEq, Repr

/-- `SELECT ... FROM assets WHERE id = ?` followed by `fetchone`. -/
def getAsset (s : Store) (aid : String) : Option Asset :=
  s.assets.find? (fun a => a.id == aid)

/-- `LEFT JOIN process_areas pa ON a.process_area_id = pa.id`, reading `pa.name`. -/
def paName (s : Store) (a : Asset) : Option String :=
  a.process_area_id.bind (fun pid =>
    (s.process_areas.find? (fun p => p.id == pid)).map (fun p => p.name))

/-- Insert a value into a deduplicated list unless already present
(used to model Python `set` accumulation and SQL `DISTINCT`/`UNION`). -/
def addUnique (l : List String) (x : String) : List String :=
  if x ∈ l then l else l ++ [x]

/-- Deduplicate a list keeping first occurrences (Python `set`, SQL `DISTINCT`). -/
def dedupList (xs : List String) : List String :=
  xs.foldl addUnique []

/-- The relationship-type filter of `traverse_upstream`/`traverse_downstream`:
Python applies the `IN (...)` clause only when the list is non-empty (an empty
or absent filter is falsy and means no filtering). -/
def typeOk (types : List String) (t : String) : Bool :=
  types.isEmpty || types.contains t

/-- Forward neighbours: `SELECT r.target_asset_id FROM relationships r WHERE
r.source_asset_id = ?` with the optional type filter (`traverse_downstream`). -/
def downNbrs (s : Store) (types : List String) (aid : String) : List String :=
  (s.relationships.filter
    (fun r => r.source_asset_id == aid && typeOk types r.relationship_type)).map
    (fun r => r.target_asset_id)

/-- Reverse neighbours: `SELECT r.source_asset_id FROM relationships r WHERE
r.target_asset_id = ?` with the optional type filter (`traverse_upstream`). -/
def upNbrs (s : Store) (types : List String) (aid : String) : List String :=
  (s.relationships.filter
    (fun r => r.target_asset_id == aid && typeOk types r.relationship_type)).map
    (fun r => r.source_asset_id)

/-- One fuel unit per loop iteration suffices: at most `R+1` distinct ids are
ever enqueued (the root plus one per relationship row), each visited id
enqueues at most `R` entries, so the queue processes at most
`(R+1)*(R+1)+1` entries in any terminating run of the source loop. -/
def bfsFuel (s : Store) : Nat :=
  (s.relationships.length + 1) * (s.relationships.length + 1) + 1

/-- The BFS loop shared by `traverse_upstream` and `traverse_downstream`
(the two Python functions are textually identical up to the direction of the
relationship query, abstracted here by `nbr`).  The queue carries
`(asset id, depth)`; an entry already visited or deeper than `maxD` is
discarded when dequeued; a visited non-root id whose asset row exists is
appended to the result at its visit depth; neighbours not yet visited are
enqueued one level deeper. -/
def bfsAux (s : Store) (nbr : String → List String) (root : String) (maxD : Nat) :
    Nat → List (String × Nat) → List String → List (Asset × Nat) → List (Asset × Nat)
  | 0, _, _, acc => acc
  | _ + 1, [], _, acc => acc
  | fuel + 1, (cur, d) :: qs, visited, acc =>
    if cur ∈ visited ∨ maxD < d then
      bfsAux s nbr root maxD fuel qs visited acc
    else
      let visited2 := cur :: visited
      let acc2 :=
        if cur = root then acc
        else
          match getAsset s cur with
          | some a => acc ++ [(a, d)]
          | none => acc
      bfsAux s nbr root maxD fuel
        (qs ++ ((nbr cur).filter (fun n => decide (n ∉ visited2))).map (fun n => (n, d + 1)))
        visited2 acc2

/-- `traverse_downstream(asset_id, relationship_types, max_depth)`: the
`assets` list of the returned dictionary, as `(asset row, depth)` pairs. -/
def traverse_downstream (s : Store) (asset_id : String) (relationship_types : List String)
    (max_depth : Nat) : List (Asset × Nat) :=
  bfsAux s (downNbrs s relationship_types) asset_id max_depth (bfsFuel s)
    [(asset_id, 0)] [] []

/-- `traverse_upstream(asset_id, relationship_types, max_depth)`: the
`assets` list of the returned dictionary, as `(asset row, depth)` pairs. -/
def traverse_upstream (s : Store) (asset_id : String) (relationship_types : List String)
    (max_depth : Nat) : List (Asset × Nat) :=
  bfsAux s (upNbrs s relationship_types) asset_id max_depth (bfsFuel s)
    [(asset_id, 0)] [] []

/-- Incoming `depends_on` sources: `SELECT r.source_asset_id FROM relationships r
WHERE r.target_asset_id = ? AND r.relationship_type = 'depends_on'`. -/
def depNbrs (s : Store) (aid : String) : List String :=
  (s.relationships.filter
    (fun r => r.target_asset_id == aid && r.relationship_type == "depends_on")).map
    (fun r => r.source_asset_id)

/-- One element of `find_dependents(...)["dependents"]`. -/
structure DependentEntry where
  asset : Asset
  depth : Nat
  dependency_path : List String
deriving DecidableEq, Repr

/-- The BFS loop of `find_dependents`: same skeleton as `bfsAux` but the
queue also carries the accumulated path, and expansion is restricted to
incoming `depends_on` edges. -/
def findDepAux (s : Store) (root : String) (maxD : Nat) :
    Nat → List (String × Nat × List String) → List String → List DependentEntry →
    List DependentEntry
  | 0, _, _, acc => acc
  | _ + 1, [], _, acc => acc
  | fuel + 1, (cur, d, path) :: qs, visited, acc =>
    if cur ∈ visited ∨ maxD < d then
      findDepAux s root maxD fuel qs visited acc
    else
      let visited2 := cur :: visited
      let curPath := path ++ [cur]
      let acc2 :=
        if cur = root then acc
        else
          match getAsset s cur with
          | some a => acc ++ [⟨a, d, curPath⟩]
          | none => acc
      findDepAux s root maxD fuel
        (qs ++ ((depNbrs s cur).filter (fun n => decide (n ∉ visited2))).map
          (fun n => (n, d + 1, curPath)))
        visited2 acc2

/-- `find_dependents(asset_id, max_depth)`: the `dependents` list. -/
def find_dependents (s : Store) (asset_id : String) (max_depth : Nat) :
    List DependentEntry :=
  findDepAux s asset_id max_depth (bfsFuel s) [(asset_id, 0, [])] [] []

/-- One element of `check_redundancy(...)["redundant_assets"]`. -/
structure RedundantEntry where
  id : String
  name : String
  type : String
  verified : Bool
deriving DecidableEq, Repr

/-- One element of `check_redundancy(...)["backup_assets"]`. -/
structure BackupEntry where
  id : String
  name : String
  type : String
deriving DecidableEq, Repr

/-- Result of `check_redundancy`. -/
structure RedundancyResult where
  asset_id : String
  has_redundancy : Bool
  redundant_assets : List RedundantEntry
  backup_assets : List BackupEntry
deriving DecidableEq, Repr

/-- The `redundant_with` join of `check_redundancy`: relationship rows of
type `redundant_with` touching `asset_id`, joined against the `assets` table
on the other endpoint (either direction). -/
def redundantRows (s : Store) (asset_id : String) : List (Relationship × Asset) :=
  (s.relationships.filter (fun r =>
    r.relationship_type == "redundant_with" &&
      (r.source_asset_id == asset_id || r.target_asset_id == asset_id))).flatMap
    (fun r =>
      (s.assets.filter (fun a =>
        (r.source_asset_id == asset_id && r.target_asset_id == a.id) ||
          (r.target_asset_id == asset_id && r.source_asset_id == a.id))).map
        (fun a => (r, a)))

/-- `check_redundancy`'s `redundant_assets`: the other endpoint of each
joined row, skipped when it is the asset itself. -/
def redundantAssetsOf (s : Store) (asset_id : String) : List RedundantEntry :=
  (redundantRows s asset_id).filterMap (fun p =>
    let other_id :=
      if p.1.source_asset_id = asset_id then p.1.target_asset_id
      else p.1.source_asset_id
    if other_id ≠ asset_id then
      some ⟨other_id, p.2.name, p.2.type, p.1.verified⟩
    else none)

/-- `check_redundancy`'s `backup_assets`: sources of incoming `backs_up`
rows, joined against the `assets` table. -/
def backupAssetsOf (s : Store) (asset_id : String) : List BackupEntry :=
  (s.relationships.filter (fun r =>
    r.target_asset_id == asset_id && r.relationship_type == "backs_up")).flatMap
    (fun r => (s.assets.filter (fun a => a.id == r.source_asset_id)).map
      (fun a => BackupEntry.mk a.id a.name a.type))

/-- `check_redundancy(asset_id)`: `redundant_with` rows joined (in either
direction) against the `assets` table, dropping the row when the other
endpoint is the asset itself, plus incoming `backs_up` rows joined against
their source asset. -/
def check_redundancy (s : Store) (asset_id : String) : RedundancyResult :=
  { asset_id := asset_id
    has_redundancy :=
      (redundantAssetsOf s asset_id).length > 0 ||
        (backupAssetsOf s asset_id).length > 0
    redundant_assets := redundantAssetsOf s asset_id
    backup_assets := backupAssetsOf s asset_id }

/-- `_calculate_spof_risk`: the base-score dictionary lookup
`{"critical": 100, "high": 75, "medium": 50, "low": 25}.get(c or "low", 25)`
(a null or empty criticality is falsy and falls back to the "low" key;
an unknown key falls back to the default 25), plus the weighted counts,
capped at 200. -/
def _calculate_spof_risk (asset_criticality : Option String) (dependent_count : Nat)
    (critical_dependents : Nat) (downstream_count : Nat) : Nat :=
  let key :=
    match asset_criticality with
    | none => "low"
    | some c => if c = "" then "low" else c
  let base :=
    if key = "critical" then 100
    else if key = "high" then 75
    else if key = "medium" then 50
    else if key = "low" then 25
    else 25
  min (base + dependent_count * 10 + critical_dependents * 25 + downstream_count * 5) 200

/-- `_risk_level`: convert a risk score to a qualitative level. -/
def _risk_level (score : Nat) : String :=
  if score ≥ 150 then "critical"
  else if score ≥ 100 then "high"
  else if score ≥ 50 then "medium"
  else "low"

/-- `_spof_recommendation`: first matching rule wins. -/
def _spof_recommendation (a : Asset) (dependent_count : Nat)
    (critical_dependents : Nat) : String :=
  if critical_dependents > 0 then
    s!"URGENT: Add redundancy - {critical_dependents} critical asset(s) depend on this"
  else if dependent_count > 3 then
    s!"HIGH PRIORITY: Multiple systems ({dependent_count}) depend on this asset"
  else if a.criticality = some "critical" then
    "Critical asset without redundancy - evaluate backup options"
  else
    "Consider adding redundancy or backup procedures"

/-- One element of the list returned by `find_single_points_of_failure`. -/
structure SpofEntry where
  id : String
  name : String
  type : String
  criticality : Option String
  process_area : Option String
  dependent_count : Nat
  critical_dependents : Nat
  downstream_count : Nat
  risk_score : Nat
  risk_level : String
  recommendation : String
deriving DecidableEq, Repr

/-- ASCII lower-casing of a string (SQLite `LIKE` is case-insensitive on
ASCII letters). -/
def lowerChars (x : String) : List Char :=
  x.toLower.data

/-- Whether the first list occurs as a contiguous block at the head of the
second. -/
def blockAt : List Char → List Char → Bool
  | [], _ => true
  | _ :: _, [] => false
  | a :: as, b :: bs => a == b && blockAt as bs

/-- Whether the first list occurs as a contiguous block anywhere in the
second. -/
def blockIn (n : List Char) : List Char → Bool
  | [] => blockAt n []
  | b :: bs => blockAt n (b :: bs) || blockIn n bs

/-- `pa.name LIKE '%q%'` for a literal `q` (case-insensitive substring). -/
def likeContains (hay q : String) : Bool :=
  blockIn (lowerChars q) (lowerChars hay)

/-- The criticality ordering used by the SPOF scan. -/
def criticality_levels : List String := ["critical", "high", "medium", "low"]

/-- Insert an entry into a list sorted by descending risk score, after any
entries of equal score (stable descending sort, matching `list.sort` with
`reverse=True` on the score key). -/
def insertByScore (x : SpofEntry) : List SpofEntry → List SpofEntry
  | [] => [x]
  | y :: ys => if y.risk_score < x.risk_score then x :: y :: ys else y :: insertByScore x ys

/-- Stable sort by descending risk score. -/
def sortByScore (l : List SpofEntry) : List SpofEntry :=
  l.foldl (fun acc x => insertByScore x acc) []

/-- The candidate filter of `find_single_points_of_failure`:
`a.criticality IN (included levels)` (NULL never matches `IN`) and the
optional `(a.process_area_id = ? OR pa.name LIKE '%?%')` restriction. -/
def spofCandidate (s : Store) (process_area : Option String)
    (included_levels : List String) (a : Asset) : Bool :=
  (match a.criticality with
   | some c => included_levels.contains c
   | none => false) &&
  (match process_area with
   | none => true
   | some q =>
     a.process_area_id == some q ||
       (match paName s a with
        | some n => likeContains n q
        | none => false))

/-- The per-candidate body of the `find_single_points_of_failure` loop:
skip when redundancy is reported, otherwise count dependents (depth 3),
outgoing relationships and critical dependents, and emit a scored entry when
`dependent_count > 0 or downstream_count > 2`. -/
def spofEntryFor (s : Store) (a : Asset) : Option SpofEntry :=
  if (check_redundancy s a.id).has_redundancy then none
  else
    let deps := find_dependents s a.id 3
    let dependent_count := deps.length
    let downstream_count :=
      (s.relationships.filter (fun r => r.source_asset_id == a.id)).length
    let critical_dependents :=
      (deps.filter (fun d => d.asset.criticality == some "critical")).length
    if dependent_count > 0 ∨ downstream_count > 2 then
      some
        { id := a.id
          name := a.name
          type := a.type
          criticality := a.criticality
          process_area := paName s a
          dependent_count := dependent_count
          critical_dependents := critical_dependents
          downstream_count := downstream_count
          risk_score := _calculate_spof_risk a.criticality dependent_count
            critical_dependents downstream_count
          risk_level := _risk_level (_calculate_spof_risk a.criticality dependent_count
            critical_dependents downstream_count)
          recommendation := _spof_recommendation a dependent_count critical_dependents }
    else none

/-- The criticality levels included for a threshold: levels up to the
threshold's index, defaulting to index 1 ("high") for unknown thresholds. -/
def includedLevels (criticality_threshold : String) : List String :=
  let threshold_index :=
    if criticality_threshold ∈ criticality_levels then
      criticality_levels.indexOf criticality_threshold
    else 1
  criticality_levels.take (threshold_index + 1)

/-- `find_single_points_of_failure(process_area, criticality_threshold)`:
scan candidate assets at or above the threshold, skip those with redundancy,
keep those with a dependent or more than two outgoing relationships, score
them and sort by descending risk score. -/
def find_single_points_of_failure (s : Store) (process_area : Option String)
    (criticality_threshold : String) : List SpofEntry :=
  sortByScore
    ((s.assets.filter
        (spofCandidate s process_area (includedLevels criticality_threshold))).filterMap
      (spofEntryFor s))

/-- The `failing_asset` block of the impact report. -/
structure FailingAsset where
  id : String
  name : String
  type : String
  criticality : Option String
  process_area : Option String
  function : Option String
deriving DecidableEq, Repr

/-- One element of `analyze_impact(...)["directly_affected"]`. -/
structure AffectedEntry where
  id : String
  name : String
  type : String
  criticality : Option String
  process_area : Option String
  impact_type : String
  description : Option String
deriving DecidableEq, Repr

/-- One element of `analyze_impact(...)["cascade_effects"]`. -/
structure CascadeEntry where
  id : String
  name : String
  type : String
  criticality : Option String
  dependency_depth : Nat
  dependency_path : String
deriving DecidableEq, Repr

/-- The `criticality_summary` block of the impact report. -/
structure CriticalitySummary where
  critical : Nat
  high : Nat
  medium : Nat
  low : Nat
deriving DecidableEq, Repr

/-- The impact report returned by `analyze_impact` on success. -/
structure ImpactReport where
  failing_asset : FailingAsset
  failure_type : String
  directly_affected : List AffectedEntry
  directly_affected_count : Nat
  cascade_effects : List CascadeEntry
  cascade_count : Nat
  total_affected : Nat
  affected_process_areas : List String
  criticality_summary : CriticalitySummary
  safety_implications : Bool
  has_redundancy : Bool
  redundancy_details : RedundancyResult
  recommendations : List String
deriving DecidableEq, Repr

/-- `analyze_impact`'s directly-affected query: immediate downstream rows of
any relationship type, joined against the `assets` table, annotated with the
relationship used. -/
def directlyAffectedOf (s : Store) (asset_id : String) : List AffectedEntry :=
  (s.relationships.filter (fun r => r.source_asset_id == asset_id)).flatMap
    (fun r => (s.assets.filter (fun a => a.id == r.target_asset_id)).map
      (fun a =>
        { id := a.id, name := a.name, type := a.type,
          criticality := a.criticality, process_area := paName s a,
          impact_type := r.relationship_type, description := r.description }))

/-- `analyze_impact`'s cascade effects: `find_dependents` at depth 5 with
the dependency path rendered as an ordered chain. -/
def cascadeEffectsOf (s : Store) (asset_id : String) : List CascadeEntry :=
  (find_dependents s asset_id 5).map (fun dep =>
    { id := dep.asset.id, name := dep.asset.name, type := dep.asset.type,
      criticality := dep.asset.criticality, dependency_depth := dep.depth,
      dependency_path := String.intercalate " → " dep.dependency_path })

/-- The deduplicated union of root, directly-affected and cascade ids
(Python builds a `set` here). -/
def affectedIdsOf (s : Store) (asset_id : String) : List String :=
  dedupList (asset_id :: ((directlyAffectedOf s asset_id).map (fun a => a.id) ++
    (cascadeEffectsOf s asset_id).map (fun a => a.id)))

/-- `SELECT DISTINCT pa.name` over the assets whose id lies in the given id
set. -/
def processAreasOfIds (s : Store) (ids : List String) : List String :=
  dedupList ((s.assets.filter (fun a => ids.contains a.id)).filterMap
    (fun a => paName s a))

/-- `analyze_impact`'s safety check: an outgoing `safety_interlock_for` edge
from the root, or from any asset in the affected id set. -/
def safetyAffectedOf (s : Store) (asset_id : String) (affected_ids : List String) : Bool :=
  (((s.relationships.filter (fun r =>
      r.source_asset_id == asset_id &&
        r.relationship_type == "safety_interlock_for")).length) > 0) ||
    (((s.relationships.filter (fun r =>
      affected_ids.contains r.source_asset_id &&
        r.relationship_type == "safety_interlock_for")).length) > 0)

/-- `analyze_impact`'s criticality summary: the directly-affected and
cascade lists are concatenated without deduplication, then bucketed by
criticality. -/
def criticalitySummaryOf (direct : List AffectedEntry) (cascade : List CascadeEntry) :
    CriticalitySummary :=
  let all_crit : List (Option String) :=
    direct.map (fun a => a.criticality) ++ cascade.map (fun a => a.criticality)
  { critical := (all_crit.filter (fun c => c == some "critical")).length
    high := (all_crit.filter (fun c => c == some "high")).length
    medium := (all_crit.filter (fun c => c == some "medium")).length
    low := (all_crit.filter (fun c => c == some "low")).length }

/-- `analyze_impact(asset_id, failure_type)`.  Returns the error dictionary
`{"error": "Asset ... not found"}` when the asset row does not exist,
otherwise the full impact report.  The criticality summary counts the
concatenation of the directly-affected and cascade lists (no deduplication),
while the affected process areas are computed from the deduplicated set of
root, directly-affected and cascade ids. -/
def analyze_impact (s : Store) (asset_id : String) (failure_type : String) :
    Except String ImpactReport :=
  match getAsset s asset_id with
  | none => Except.error s!"Asset {asset_id} not found"
  | some row =>
    let failing_asset : FailingAsset :=
      { id := row.id, name := row.name, type := row.type,
        criticality := row.criticality, process_area := paName s row,
        function := row.function }
    let directly_affected := directlyAffectedOf s asset_id
    let cascade_effects := cascadeEffectsOf s asset_id
    let affected_ids := affectedIdsOf s asset_id
    let process_areas := processAreasOfIds s affected_ids
    let safety_affected := safetyAffectedOf s asset_id affected_ids
    let redundancy := check_redundancy s asset_id
    let criticality_summary := criticalitySummaryOf directly_affected cascade_effects
    let fname := failing_asset.name
    let ccount := criticality_summary.critical
    let pcount := process_areas.length
    let recommendations : List String :=
      (if !redundancy.has_redundancy then
        [s!"CRITICAL: {fname} has no redundancy configured"] else []) ++
      (if criticality_summary.critical > 0 then
        [s!"Failure would affect {ccount} critical asset(s)"] else []) ++
      (if safety_affected then
        ["WARNING: Safety systems may be affected - review safety protocols"] else []) ++
      (if process_areas.length > 1 then
        [s!"Impact spans {pcount} process areas - coordinate response"] else [])
    Except.ok
      { failing_asset := failing_asset
        failure_type := failure_type
        directly_affected := directly_affected
        directly_affected_count := directly_affected.length
        cascade_effects := cascade_effects
        cascade_count := cascade_effects.length
        total_affected := directly_affected.length + cascade_effects.length
        affected_process_areas := process_areas
        criticality_summary := criticality_summary
        safety_implications := safety_affected
        has_redundancy := redundancy.has_redundancy
        redundancy_details := redundancy
        recommendations := recommendations }

/-- One element of the `path` list returned by `get_critical_path` on success. -/
structure PathDetail where
  id : String
  name : String
  type : String
  criticality : Option String
  position : Nat
  relationship_to_next : Option String
deriving DecidableEq, Repr

/-- Result of `get_critical_path`: `{"found": True, "path_length": ..,
"path": ..}` or `{"found": False, "message": ..}`. -/
inductive PathResult where
  | found (path_length : Nat) (path : List PathDetail) : PathResult
  | noPath (message : String) : PathResult
deriving DecidableEq, Repr

/-- `UNION` of outgoing targets and incoming sources (deduplicated), the
undirected neighbour query of `get_critical_path`. -/
def undirNbrs (s : Store) (aid : String) : List String :=
  dedupList
    ((s.relationships.filter (fun r => r.source_asset_id == aid)).map
      (fun r => r.target_asset_id) ++
     (s.relationships.filter (fun r => r.target_asset_id == aid)).map
      (fun r => r.source_asset_id))

/-- Path reconstruction of `get_critical_path`: each id of the path that has
an asset row becomes a detail entry; a non-final position is labelled with
the first relationship found in the exact source→target direction of the hop
(a hop travelled against the stored direction may stay unlabelled). -/
def pathDetails (s : Store) (path : List String) : List PathDetail :=
  (path.enum.filterMap (fun p =>
    (s.assets.find? (fun a => a.id == p.2)).map (fun a =>
      { id := a.id, name := a.name, type := a.type, criticality := a.criticality,
        position := p.1,
        relationship_to_next :=
          if p.1 < path.length - 1 then
            match path.get? (p.1 + 1) with
            | some nxt =>
              (s.relationships.find? (fun r =>
                r.source_asset_id == p.2 && r.target_asset_id == nxt)).map
                (fun r => r.relationship_type)
            | none => none
          else none })))

/-- The BFS loop of `get_critical_path`: the target check happens when an
entry is dequeued, before the visited check; the queue carries the path from
the source. -/
def pathBfsAux (s : Store) (source target : String) :
    Nat → List (String × List String) → List String → PathResult
  | 0, _, _ => PathResult.noPath s!"No path found between {source} and {target}"
  | _ + 1, [], _ => PathResult.noPath s!"No path found between {source} and {target}"
  | fuel + 1, (cur, path) :: qs, visited =>
    if cur = target then
      PathResult.found path.length (pathDetails s path)
    else if cur ∈ visited then
      pathBfsAux s source target fuel qs visited
    else
      let visited2 := cur :: visited
      pathBfsAux s source target fuel
        (qs ++ ((undirNbrs s cur).filter (fun n => decide (n ∉ visited2))).map
          (fun n => (n, path ++ [n])))
        visited2

/-- `get_critical_path(source_asset_id, target_asset_id)`. -/
def get_critical_path (s : Store) (source_asset_id target_asset_id : String) :
    PathResult :=
  pathBfsAux s source_asset_id target_asset_id (bfsFuel s)
    [(source_asset_id, [source_asset_id])] []

/-- Ids reachable from `root` in exactly `n` steps of the neighbour
function (paths are independent of the traversal's visited set, so this is
the BFS reachability relation of the graph itself). -/
def reachN (nbr : String → List String) (root : String) : Nat → List String
  | 0 => [root]
  | n + 1 => (reachN nbr root n).flatMap nbr

/-- The loop invariant of `bfsAux`.  `vd` is a ghost assignment recording
the depth at which each visited id was visited: visited ids were reached at
their minimal BFS depth, queue entries are reachable at their recorded
depth, queue depths are non-decreasing with spread at most one, every id
with a strictly shallower path than the queue head is already visited, the
neighbours of a visited id are visited or enqueued one level deeper, and
result entries are visited non-root ids recorded at their visit depth. -/
structure BfsInv (s : Store) (nbr : String → List String) (root : String) (maxD : Nat)
    (vd : String → Nat) (q : List (String × Nat)) (v : List String)
    (acc : List (Asset × Nat)) : Prop where
  visited_reach : ∀ x ∈ v, x ∈ reachN nbr root (vd x)
  visited_min : ∀ x ∈ v, ∀ k, k < vd x → x ∉ reachN nbr root k
  visited_le : ∀ x ∈ v, vd x ≤ maxD
  root_visited : root ∈ v
  queue_reach : ∀ e ∈ q, e.1 ∈ reachN nbr root e.2
  queue_le : ∀ e ∈ q, e.2 ≤ maxD + 1
  queue_pw : List.Pairwise (fun e1 e2 => e1.2 ≤ e2.2) q
  queue_spread : ∀ e1 ∈ q, ∀ e2 ∈ q, e1.2 ≤ e2.2 + 1
  closed : ∀ y ∈ v, vd y + 1 ≤ maxD → ∀ x ∈ nbr y, x ∈ v ∨ (x, vd y + 1) ∈ q
  frontier : ∀ c0 d0 t, q = (c0, d0) :: t →
    ∀ x k, x ∈ reachN nbr root k → k < d0 → x ∈ v
  acc_ids : ∀ e ∈ acc, e.1.id ∈ v ∧ e.1.id ≠ root ∧ vd e.1.id = e.2
  acc_nodup : (acc.map (fun e => e.1.id)).Nodup

/-! ### Concrete stores used by witnesses and counterexamples -/

/-- A store with no rows at all. -/
def emptyStore : Store := ⟨[], [], []⟩

/-- Asset A of the three-node cycle. -/
def aA : Asset := ⟨"A", "Asset A", "PLC", some "high", none, none⟩

/-- Asset B of the three-node cycle. -/
def aB : Asset := ⟨"B", "Asset B", "HMI", some "medium", none, none⟩

/-- Asset C of the three-node cycle. -/
def aC : Asset := ⟨"C", "Asset C", "Sensor", some "low", none, none⟩

/-- A relationship row with only the graph-relevant fields populated. -/
def mkRel (i src tgt t : String) : Relationship := ⟨i, src, tgt, t, false, false, none⟩

/-- A graph whose only edges form the pure directed cycle A→B→C→A. -/
def cycleStore : Store :=
  ⟨[aA, aB, aC],
   [mkRel "r1" "A" "B" "feeds_data_to", mkRel "r2" "B" "C" "feeds_data_to",
    mkRel "r3" "C" "A" "feeds_data_to"], []⟩

/-- Two assets joined by a directionally stored `redundant_with` edge. -/
def redPairStore : Store :=
  ⟨[aA, aB], [mkRel "rw1" "A" "B" "redundant_with"], []⟩

/-- Asset X of the self-loop counterexample. -/
def xAsset : Asset := ⟨"X", "Asset X", "PLC", some "high", none, none⟩

/-- Asset D of the self-loop counterexample. -/
def dAsset : Asset := ⟨"D", "Asset D", "HMI", some "low", none, none⟩

/-- A store where X carries a self-loop `redundant_with` relationship and a
dependent: the self-loop is a `redundant_with` relationship on X, yet the
join drops it (the other endpoint equals X), so the redundancy check is
negative and X is reported as a SPOF. -/
def selfLoopStore : Store :=
  ⟨[xAsset, dAsset],
   [mkRel "s1" "X" "X" "redundant_with", mkRel "s2" "D" "X" "depends_on"], []⟩

/-- Asset Y, the redundant partner in the C4 witness store. -/
def yAsset : Asset := ⟨"Y", "Asset Y", "PLC", some "high", none, none⟩

/-- A store where X has a real redundant partner Y and a dependent D. -/
def redundantSpofStore : Store :=
  ⟨[xAsset, yAsset, dAsset],
   [mkRel "t1" "X" "Y" "redundant_with", mkRel "t2" "D" "X" "depends_on"], []⟩

/-- Root asset of the duplicate-counting store. -/
def pAsset : Asset := ⟨"P", "Plant PLC", "PLC", some "high", some "pa1", none⟩

/-- An asset that is both directly affected by P and a transitive dependent
of P. -/
def zAsset : Asset := ⟨"Z", "Zone HMI", "HMI", some "critical", some "pa1", none⟩

/-- A store where Z is reached both by a direct `controls` edge and by a
`depends_on` cascade from P, so Z is counted twice in the criticality
summary but only once for process areas. -/
def dupStore : Store :=
  ⟨[pAsset, zAsset],
   [mkRel "u1" "P" "Z" "controls", mkRel "u2" "Z" "P" "depends_on"],
   [⟨"pa1", "Area 1"⟩]⟩

/-- A default report used only to name the computed report of `dupStore`. -/
def emptyReport : ImpactReport :=
  ⟨⟨"", "", "", none, none, none⟩, "", [], 0, [], 0, 0, [], ⟨0, 0, 0, 0⟩,
    false, false, ⟨"", false, [], []⟩, []⟩

/-- The impact report of P in `dupStore`. -/
def dupReport : ImpactReport :=
  (analyze_impact dupStore "P" "complete").toOption.getD emptyReport

/-! ### Claim theorems -/

/-- Specification-side base score: critical→100, high→75, medium→50,
low→25; an unassigned (NULL) criticality also maps to 25. -/
def baseScoreSpec : Option String → Nat
  | some "critical" => 100
  | some "high" => 75
  | some "medium" => 50
  | _ => 25

/-- C3: the SPOF risk score equals
`base(criticality) + dependentCount*10 + criticalDependents*25 + downstreamCount*5`
with base mapping critical→100, high→75, medium→50, low/unassigned→25,
capped at 200; the risk level is "critical" for score ≥ 150, "high" for
≥ 100, "medium" for ≥ 50, else "low"; and a critical asset with 2 dependents
(1 critical) and 3 downstream edges scores 160 with level "critical". -/
theorem claim3_spof_score_formula (c : Option String) (d cd dn : Nat)
    (hc : c ∈ [none, some "critical", some "high", some "medium", some "low"]) :
    _calculate_spof_risk c d cd dn =
      min (baseScoreSpec c + d * 10 + cd * 25 + dn * 5) 200 ∧
    (∀ sc : Nat, 150 ≤ sc → _risk_level sc = "critical") ∧
    (∀ sc : Nat, 100 ≤ sc → sc < 150 → _risk_level sc = "high") ∧
    (∀ sc : Nat, 50 ≤ sc → sc < 100 → _risk_level sc = "medium") ∧
    (∀ sc : Nat, sc < 50 → _risk_level sc = "low") ∧
    _calculate_spof_risk (some "critical") 2 1 3 = 160 ∧
    _risk_level (_calculate_spof_risk (some "critical") 2 1 3) = "critical" := by
  refine ⟨?_, ?_, ?_, ?_, ?_, by decide, by decide⟩
  · simp only [List.mem_cons, List.mem_singleton] at hc
    rcases hc with rfl | rfl | rfl | rfl | rfl | h
    · simp [_calculate_spof_risk, baseScoreSpec]
    · simp [_calculate_spof_risk, baseScoreSpec]
    · simp [_calculate_spof_risk, baseScoreSpec]
    · simp [_calculate_spof_risk, baseScoreSpec]
    · simp [_calculate_spof_risk, baseScoreSpec]
    · exact absurd h (by simp)
  · intro sc h
    simp [_risk_level, h]
  · intro sc h1 h2
    have e1 : ¬ sc ≥ 150 := by omega
    simp [_risk_level, e1, h1]
  · intro sc h1 h2
    have e1 : ¬ sc ≥ 150 := by omega
    have e2 : ¬ sc ≥ 100 := by omega
    simp [_risk_level, e1, e2, h1]
  · intro sc h1
    have e1 : ¬ sc ≥ 150 := by omega
    have e2 : ¬ sc ≥ 100 := by omega
    have e3 : ¬ sc ≥ 50 := by omega
    simp [_risk_level, e1, e2, e3]

/-- Witness for C3 at a concrete input. -/
theorem claim3_witness :
    (some "high" : Option String) ∈
      [none, some "critical", some "high", some "medium", some "low"] ∧
    _calculate_spof_risk (some "high") 4 2 1 =
      min (baseScoreSpec (some "high") + 4 * 10 + 2 * 25 + 1 * 5) 200 :=
  ⟨by decide, (claim3_spof_score_formula (some "high") 4 2 1 (by decide)).1⟩

/-- C5: `analyze_impact` on an asset id that does not exist in the store
returns the not-found error result, not an empty impact report. -/
theorem claim5_analyze_impact_notfound (s : Store) (asset_id failure_type : String)
    (h : getAsset s asset_id = none) :
    analyze_impact s asset_id failure_type =
      Except.error s!"Asset {asset_id} not found" := by
  simp [analyze_impact, h]

/-- Witness for C5: the empty store holds no asset "X". -/
theorem claim5_witness :
    getAsset emptyStore "X" = none ∧
    analyze_impact emptyStore "X" "complete" = Except.error "Asset X not found" :=
  ⟨rfl, claim5_analyze_impact_notfound emptyStore "X" "complete" rfl⟩

/-- C10: for every store and every id `x` (existing or not),
`get_critical_path x x` reports found with path length 1, because the target
check happens on dequeue before the visited check and before any asset
lookup. -/
theorem claim10_path_self_found (s : Store) (x : String) :
    ∃ details, get_critical_path s x x = PathResult.found 1 details := by
  refine ⟨pathDetails s [x], ?_⟩
  show pathBfsAux s x x (bfsFuel s) [(x, [x])] [] = _
  rw [bfsFuel]
  rw [pathBfsAux]
  simp

/-- C7: on the pure directed cycle A→B→C→A, forward traversal from A with
any `maxDepth ≥ 2` returns exactly B at depth 1 and C at depth 2, and never
revisits A. -/
theorem claim7_cycle_traversal (maxD : Nat) (h : 2 ≤ maxD) :
    traverse_downstream cycleStore "A" [] maxD = [(aB, 1), (aC, 2)] := by
  have h0 : ¬ (maxD < 0) := by omega
  have h1 : ¬ (maxD < 1) := by omega
  have h2 : ¬ (maxD < 2) := by omega
  simp [traverse_downstream, bfsFuel, cycleStore, aA, aB, aC, mkRel, bfsAux,
    downNbrs, typeOk, getAsset, h0, h1, h2]

/-- Witness for C7 at `maxDepth = 2`. -/
theorem claim7_witness :
    2 ≤ 2 ∧ traverse_downstream cycleStore "A" [] 2 = [(aB, 1), (aC, 2)] :=
  ⟨by decide, claim7_cycle_traversal 2 (by decide)⟩

/-! ### Membership lemmas for the SPOF scan and redundancy check -/

theorem mem_insertByScore (x e : SpofEntry) (l : List SpofEntry) :
    e ∈ insertByScore x l ↔ e = x ∨ e ∈ l := by
  induction l with
  | nil => simp [insertByScore]
  | cons y ys ih =>
    rw [insertByScore]
    split
    · simp [or_left_comm]
    · simp [ih, or_left_comm]

theorem mem_foldl_insertByScore (e : SpofEntry) (l acc : List SpofEntry) :
    e ∈ l.foldl (fun acc2 x => insertByScore x acc2) acc ↔ e ∈ acc ∨ e ∈ l := by
  induction l generalizing acc with
  | nil => simp
  | cons y ys ih =>
    rw [List.foldl_cons, ih, mem_insertByScore]
    simp only [List.mem_cons]
    tauto

theorem mem_sortByScore (e : SpofEntry) (l : List SpofEntry) :
    e ∈ sortByScore l ↔ e ∈ l := by
  simp [sortByScore, mem_foldl_insertByScore]

/-- A successful `spofEntryFor` result carries the candidate's id and
implies the redundancy check came back negative. -/
theorem spofEntryFor_inv (s : Store) (a : Asset) (e : SpofEntry)
    (h : spofEntryFor s a = some e) :
    e.id = a.id ∧ (check_redundancy s a.id).has_redundancy = false := by
  unfold spofEntryFor at h
  split at h
  · exact absurd h (by simp)
  · next hra =>
    simp only [] at h
    split at h
    · cases h
      exact ⟨rfl, by simpa using hra⟩
    · exact absurd h (by simp)

/-- A stored `redundant_with` edge between `x` and a distinct asset present
in the store puts that asset's id into `redundant_assets`. -/
theorem redundant_mem (s : Store) (x : String) (r : Relationship) (a : Asset)
    (hr : r ∈ s.relationships) (ht : r.relationship_type = "redundant_with")
    (hcase : r.source_asset_id = x ∧ r.target_asset_id = a.id ∧ r.target_asset_id ≠ x ∨
             r.target_asset_id = x ∧ r.source_asset_id = a.id ∧ r.source_asset_id ≠ x)
    (ha : a ∈ s.assets) :
    a.id ∈ (check_redundancy s x).redundant_assets.map (fun e => e.id) := by
  have hrow : (r, a) ∈ redundantRows s x := by
    rw [redundantRows, List.mem_flatMap]
    refine ⟨r, ?_, ?_⟩
    · rw [List.mem_filter]
      refine ⟨hr, ?_⟩
      simp only [Bool.and_eq_true, Bool.or_eq_true, beq_iff_eq]
      refine ⟨ht, ?_⟩
      rcases hcase with ⟨h1, _, _⟩ | ⟨h1, _, _⟩
      · exact Or.inl h1
      · exact Or.inr h1
    · rw [List.mem_map]
      refine ⟨a, ?_, rfl⟩
      rw [List.mem_filter]
      refine ⟨ha, ?_⟩
      simp only [Bool.or_eq_true, Bool.and_eq_true, beq_iff_eq]
      rcases hcase with ⟨h1, h2, _⟩ | ⟨h1, h2, _⟩
      · exact Or.inl ⟨h1, h2⟩
      · exact Or.inr ⟨h1, h2⟩
  rw [check_redundancy]
  simp only [List.mem_map]
  rcases hcase with ⟨h1, h2, h3⟩ | ⟨h1, h2, h3⟩
  · refine ⟨⟨r.target_asset_id, a.name, a.type, r.verified⟩, ?_, h2⟩
    rw [redundantAssetsOf, List.mem_filterMap]
    exact ⟨(r, a), hrow, by simp [h1, h3]⟩
  · refine ⟨⟨r.source_asset_id, a.name, a.type, r.verified⟩, ?_, h2⟩
    rw [redundantAssetsOf, List.mem_filterMap]
    have hsx : ¬ r.source_asset_id = x := h3
    exact ⟨(r, a), hrow, by simp [hsx, h3]⟩

/-- A stored incoming `backs_up` edge whose source asset exists puts that
source's id into `backup_assets`. -/
theorem backup_mem (s : Store) (x : String) (r : Relationship) (a : Asset)
    (hr : r ∈ s.relationships) (ht : r.relationship_type = "backs_up")
    (htgt : r.target_asset_id = x) (hsrc : a.id = r.source_asset_id)
    (ha : a ∈ s.assets) :
    a.id ∈ (check_redundancy s x).backup_assets.map (fun e => e.id) := by
  rw [check_redundancy]
  simp only [List.mem_map]
  refine ⟨BackupEntry.mk a.id a.name a.type, ?_, rfl⟩
  rw [backupAssetsOf, List.mem_flatMap]
  refine ⟨r, ?_, ?_⟩
  · rw [List.mem_filter]
    exact ⟨hr, by simp [ht, htgt]⟩
  · rw [List.mem_map]
    refine ⟨a, ?_, rfl⟩
    rw [List.mem_filter]
    exact ⟨ha, by simp [hsrc]⟩

/-- Membership in either redundancy list makes `has_redundancy` true. -/
theorem has_redundancy_of_mem (s : Store) (x : String)
    (h : (check_redundancy s x).redundant_assets ≠ [] ∨
         (check_redundancy s x).backup_assets ≠ []) :
    (check_redundancy s x).has_redundancy = true := by
  rw [check_redundancy] at h ⊢
  simp only [Bool.or_eq_true, decide_eq_true_eq]
  rcases h with h | h
  · exact Or.inl (List.length_pos.mpr h)
  · exact Or.inr (List.length_pos.mpr h)

/-! ### C6: symmetry of the redundancy check -/

/-- C6: `check_redundancy` is symmetric for `redundant_with`: for distinct
assets A and B both present in the store, a `redundant_with` relationship in
either stored direction makes `check_redundancy(A)` list B and
`check_redundancy(B)` list A. -/
theorem claim6_check_redundancy_symmetric (s : Store) (r : Relationship) (A B : Asset)
    (hr : r ∈ s.relationships) (ht : r.relationship_type = "redundant_with")
    (hAB : r.source_asset_id = A.id ∧ r.target_asset_id = B.id ∨
           r.source_asset_id = B.id ∧ r.target_asset_id = A.id)
    (hne : A.id ≠ B.id) (hA : A ∈ s.assets) (hB : B ∈ s.assets) :
    B.id ∈ (check_redundancy s A.id).redundant_assets.map (fun e => e.id) ∧
    A.id ∈ (check_redundancy s B.id).redundant_assets.map (fun e => e.id) := by
  rcases hAB with ⟨h1, h2⟩ | ⟨h1, h2⟩
  · constructor
    · exact redundant_mem s A.id r B hr ht
        (Or.inl ⟨h1, h2, by rw [h2]; exact fun hh => hne hh.symm⟩) hB
    · exact redundant_mem s B.id r A hr ht
        (Or.inr ⟨h2, h1, by rw [h1]; exact hne⟩) hA
  · constructor
    · exact redundant_mem s A.id r B hr ht
        (Or.inr ⟨h2, h1, by rw [h1]; exact fun hh => hne hh.symm⟩) hB
    · exact redundant_mem s B.id r A hr ht
        (Or.inl ⟨h1, h2, by rw [h2]; exact hne⟩) hA

/-- Witness for C6 on a concrete store. -/
theorem claim6_witness :
    mkRel "rw1" "A" "B" "redundant_with" ∈ redPairStore.relationships ∧
    "B" ∈ (check_redundancy redPairStore "A").redundant_assets.map (fun e => e.id) ∧
    "A" ∈ (check_redundancy redPairStore "B").redundant_assets.map (fun e => e.id) :=
  ⟨by decide,
   (claim6_check_redundancy_symmetric redPairStore (mkRel "rw1" "A" "B" "redundant_with")
     aA aB (by decide) (by decide) (Or.inl ⟨rfl, rfl⟩) (by decide)
     (by decide) (by decide)).1,
   (claim6_check_redundancy_symmetric redPairStore (mkRel "rw1" "A" "B" "redundant_with")
     aA aB (by decide) (by decide) (Or.inl ⟨rfl, rfl⟩) (by decide)
     (by decide) (by decide)).2⟩

/-! ### C4: redundancy-bearing assets and the SPOF scan -/

/-- C4 counterexample: the asset X has a `redundant_with` relationship (the
self-loop, in both directions at once), yet `find_single_points_of_failure`
returns it. -/
theorem claim4_counterexample :
    (∃ r ∈ selfLoopStore.relationships,
      r.relationship_type = "redundant_with" ∧
        (r.source_asset_id = "X" ∨ r.target_asset_id = "X")) ∧
    "X" ∈ (find_single_points_of_failure selfLoopStore none "high").map
      (fun e => e.id) := by
  decide

/-- C4 amended: an asset with a `redundant_with` relationship to a distinct
asset present in the store (in either direction), or with an incoming
`backs_up` relationship whose source asset is present, is never returned by
`find_single_points_of_failure`, regardless of its dependent count or
downstream edge count. -/
theorem claim4_amended_no_redundant_spof (s : Store) (x : String)
    (process_area : Option String) (criticality_threshold : String)
    (h : (∃ r ∈ s.relationships, r.relationship_type = "redundant_with" ∧
            (r.source_asset_id = x ∧ r.target_asset_id ≠ x ∧
              (∃ a ∈ s.assets, a.id = r.target_asset_id) ∨
             r.target_asset_id = x ∧ r.source_asset_id ≠ x ∧
              (∃ a ∈ s.assets, a.id = r.source_asset_id))) ∨
        (∃ r ∈ s.relationships, r.relationship_type = "backs_up" ∧
          r.target_asset_id = x ∧ ∃ a ∈ s.assets, a.id = r.source_asset_id)) :
    x ∉ (find_single_points_of_failure s process_area criticality_threshold).map
      (fun e => e.id) := by
  have hred : (check_redundancy s x).has_redundancy = true := by
    rcases h with ⟨r, hr, ht, hc⟩ | ⟨r, hr, ht, htgt, a, ha, hsrc⟩
    · rcases hc with ⟨h1, h2, a, ha, haid⟩ | ⟨h1, h2, a, ha, haid⟩
      · have := redundant_mem s x r a hr ht
          (Or.inl ⟨h1, haid.symm, h2⟩) ha
        refine has_redundancy_of_mem s x (Or.inl ?_)
        intro hnil
        rw [hnil] at this
        simp at this
      · have := redundant_mem s x r a hr ht
          (Or.inr ⟨h1, haid.symm, h2⟩) ha
        refine has_redundancy_of_mem s x (Or.inl ?_)
        intro hnil
        rw [hnil] at this
        simp at this
    · have := backup_mem s x r a hr ht htgt hsrc ha
      refine has_redundancy_of_mem s x (Or.inr ?_)
      intro hnil
      rw [hnil] at this
      simp at this
  intro hmem
  rw [List.mem_map] at hmem
  obtain ⟨e, he, heid⟩ := hmem
  rw [find_single_points_of_failure, mem_sortByScore, List.mem_filterMap] at he
  obtain ⟨a, _, hfa⟩ := he
  obtain ⟨hid, hfalse⟩ := spofEntryFor_inv s a e hfa
  rw [hid] at heid
  rw [heid] at hfalse
  rw [hred] at hfalse
  cases hfalse

/-- Witness for the amended C4 on a concrete store. -/
theorem claim4_witness :
    "X" ∉ (find_single_points_of_failure redundantSpofStore none "high").map
      (fun e => e.id) :=
  claim4_amended_no_redundant_spof redundantSpofStore "X" none "high"
    (Or.inl ⟨mkRel "t1" "X" "Y" "redundant_with", by decide, by decide,
      Or.inl ⟨rfl, by decide, yAsset, by decide, rfl⟩⟩)

/-! ### C9 / C10: path finding and missing assets -/

/-- C9 counterexample: `get_critical_path` performs no existence check.  On
the empty store (where neither id exists) it returns the ordinary no-path
result for distinct ids — the same result shape used for disconnected
components — and even reports success for equal ids; it never produces a
NotFound error. -/
theorem claim9_counterexample :
    get_critical_path emptyStore "X" "Y" =
      PathResult.noPath "No path found between X and Y" ∧
    get_critical_path emptyStore "W" "W" = PathResult.found 1 [] := by
  exact ⟨rfl, rfl⟩

/-- C9 amended: path-finding does not return a NotFound error for missing
assets; a source id that is absent from the relationship table (in
particular an id that does not exist in the store) yields the ordinary
no-path result whenever it differs from the target. -/
theorem claim9_amended_no_path_result (s : Store) (x y : String) (hxy : x ≠ y)
    (hno : ∀ r ∈ s.relationships, r.source_asset_id ≠ x ∧ r.target_asset_id ≠ x) :
    get_critical_path s x y =
      PathResult.noPath s!"No path found between {x} and {y}" := by
  have hA : s.relationships.filter (fun r => r.source_asset_id == x) = [] := by
    rw [List.filter_eq_nil_iff]
    intro r hrr
    simpa using (hno r hrr).1
  have hB : s.relationships.filter (fun r => r.target_asset_id == x) = [] := by
    rw [List.filter_eq_nil_iff]
    intro r hrr
    simpa using (hno r hrr).2
  have hU : undirNbrs s x = [] := by
    simp [undirNbrs, hA, hB, dedupList]
  rw [get_critical_path, bfsFuel, pathBfsAux]
  rw [if_neg hxy]
  obtain ⟨k, hk⟩ :
      ∃ k, (s.relationships.length + 1) * (s.relationships.length + 1) = k + 1 :=
    ⟨s.relationships.length * s.relationships.length + 2 * s.relationships.length,
      by ring⟩
  simp only [List.mem_nil_iff, if_false, hU, List.filter_nil, List.map_nil,
    List.nil_append, List.append_nil]
  rw [hk, pathBfsAux]

/-- Witness for the amended C9 on the empty store. -/
theorem claim9_witness :
    get_critical_path emptyStore "X" "Y" =
      PathResult.noPath "No path found between X and Y" :=
  claim9_amended_no_path_result emptyStore "X" "Y" (by decide) (by simp [emptyStore])

/-! ### C8: criticality summary vs process-area deduplication -/

theorem addUnique_nodup (l : List String) (x : String) (h : l.Nodup) :
    (addUnique l x).Nodup := by
  rw [addUnique]
  split
  · exact h
  · next hx =>
    rw [List.nodup_append]
    exact ⟨h, List.nodup_singleton x, by simpa using hx⟩

theorem dedupList_nodup (xs : List String) : (dedupList xs).Nodup := by
  rw [dedupList]
  suffices h : ∀ acc : List String, acc.Nodup → (xs.foldl addUnique acc).Nodup from
    h [] List.nodup_nil
  induction xs with
  | nil =>
    intro acc h
    simpa using h
  | cons y ys ih =>
    intro acc h
    exact ih (addUnique acc y) (addUnique_nodup acc y h)

/-- C8: in every successful impact report, the criticality summary counts
the directly-affected and cascade lists with multiplicity (an asset present
in both lists is counted twice), whereas the affected process areas are
computed from the deduplicated union of the root id and the ids of both
lists, and are themselves duplicate-free. -/
theorem claim8_summary_asymmetry (s : Store) (asset_id failure_type : String)
    (r : ImpactReport) (h : analyze_impact s asset_id failure_type = Except.ok r) :
    (r.criticality_summary.critical =
      (r.directly_affected.map (fun a => a.criticality)).count (some "critical") +
        (r.cascade_effects.map (fun a => a.criticality)).count (some "critical") ∧
     r.criticality_summary.high =
      (r.directly_affected.map (fun a => a.criticality)).count (some "high") +
        (r.cascade_effects.map (fun a => a.criticality)).count (some "high") ∧
     r.criticality_summary.medium =
      (r.directly_affected.map (fun a => a.criticality)).count (some "medium") +
        (r.cascade_effects.map (fun a => a.criticality)).count (some "medium") ∧
     r.criticality_summary.low =
      (r.directly_affected.map (fun a => a.criticality)).count (some "low") +
        (r.cascade_effects.map (fun a => a.criticality)).count (some "low")) ∧
    r.total_affected = r.directly_affected.length + r.cascade_effects.length ∧
    r.affected_process_areas =
      processAreasOfIds s (dedupList (asset_id ::
        (r.directly_affected.map (fun a => a.id) ++
          r.cascade_effects.map (fun a => a.id)))) ∧
    r.affected_process_areas.Nodup := by
  unfold analyze_impact at h
  cases hg : getAsset s asset_id with
  | none =>
    rw [hg] at h
    cases h
  | some row =>
    rw [hg] at h
    simp only [] at h
    cases h
    refine ⟨⟨?_, ?_, ?_, ?_⟩, rfl, ?_, ?_⟩
    · simp [criticalitySummaryOf, List.count, List.countP_eq_length_filter,
        List.filter_append]
    · simp [criticalitySummaryOf, List.count, List.countP_eq_length_filter,
        List.filter_append]
    · simp [criticalitySummaryOf, List.count, List.countP_eq_length_filter,
        List.filter_append]
    · simp [criticalitySummaryOf, List.count, List.countP_eq_length_filter,
        List.filter_append]
    · rw [affectedIdsOf]
    · exact dedupList_nodup _

/-- Witness for C8: in `dupStore` the asset Z appears in both lists, the
summary counts it twice (2 critical), while the deduplicated id union has
two elements and the affected process areas list the shared area once. -/
theorem claim8_witness :
    analyze_impact dupStore "P" "complete" = Except.ok dupReport ∧
    dupReport.criticality_summary.critical =
      (dupReport.directly_affected.map (fun a => a.criticality)).count (some "critical") +
        (dupReport.cascade_effects.map (fun a => a.criticality)).count (some "critical") ∧
    dupReport.criticality_summary.critical = 2 ∧
    (dupReport.directly_affected.map (fun a => a.id)).count "Z" = 1 ∧
    (dupReport.cascade_effects.map (fun a => a.id)).count "Z" = 1 ∧
    (dedupList ("P" :: (dupReport.directly_affected.map (fun a => a.id) ++
      dupReport.cascade_effects.map (fun a => a.id)))).length = 2 ∧
    dupReport.affected_process_areas = ["Area 1"] :=
  ⟨by rfl,
   ((claim8_summary_asymmetry dupStore "P" "complete" dupReport (by rfl)).1).1,
   by decide, by decide, by decide, by decide, by decide⟩

/-! ### BFS layer invariants (C1 / C2) -/

theorem mem_reachN_succ (nbr : String → List String) (root : String) (n : Nat)
    {x y : String} (hy : y ∈ reachN nbr root n) (hx : x ∈ nbr y) :
    x ∈ reachN nbr root (n + 1) := by
  rw [reachN, List.mem_flatMap]
  exact ⟨y, hy, hx⟩

theorem getAsset_id {s : Store} {cid : String} {a : Asset}
    (h : getAsset s cid = some a) : a.id = cid := by
  have := List.find?_some h
  simpa using this

theorem pairwise_snd_map_const (l : List String) (k : Nat) :
    List.Pairwise (fun (e1 e2 : String × Nat) => e1.2 ≤ e2.2) (l.map (fun n => (n, k))) := by
  induction l with
  | nil => simp
  | cons a t ih =>
    rw [List.map_cons, List.pairwise_cons]
    refine ⟨?_, ih⟩
    intro b hb
    rw [List.mem_map] at hb
    obtain ⟨n, _, rfl⟩ := hb
    exact Nat.le_refl k

/-- If every id with a path strictly shorter than the popped depth `d` is
visited and the remaining queue has no entry at depth `≤ d`, then every id
with a path of length exactly `d` is the popped id or already visited. -/
theorem layer_filled {s : Store} {nbr : String → List String} {root : String}
    {maxD : Nat} {vd : String → Nat} {c : String} {d : Nat}
    {qs : List (String × Nat)} {v : List String} {acc : List (Asset × Nat)}
    (hinv : BfsInv s nbr root maxD vd ((c, d) :: qs) v acc)
    (hdle : d ≤ maxD)
    (hqs : ∀ e ∈ qs, d + 1 ≤ e.2)
    (x : String) (hx : x ∈ reachN nbr root d) :
    x = c ∨ x ∈ v := by
  cases d with
  | zero =>
    right
    rw [reachN] at hx
    rw [List.mem_singleton] at hx
    subst hx
    exact hinv.root_visited
  | succ j =>
    rw [reachN, List.mem_flatMap] at hx
    obtain ⟨y, hy, hxy⟩ := hx
    have hyv : y ∈ v := hinv.frontier c (j + 1) qs rfl y j hy (Nat.lt_succ_self j)
    have hvdy : vd y ≤ j := by
      by_contra hlt
      push_neg at hlt
      exact hinv.visited_min y hyv j hlt hy
    have hguard : vd y + 1 ≤ maxD := by omega
    rcases hinv.closed y hyv hguard x hxy with hxv | hq
    · exact Or.inr hxv
    · rcases List.mem_cons.mp hq with heq | hmem
      · exact Or.inl (congrArg Prod.fst heq)
      · exfalso
        have h2 := hqs (x, vd y + 1) hmem
        simp at h2
        omega

/-- Discarding a dequeued entry (already visited, or beyond the depth
bound) preserves the invariant. -/
theorem BfsInv.skip {s : Store} {nbr : String → List String} {root : String}
    {maxD : Nat} {vd : String → Nat} {c : String} {d : Nat}
    {qs : List (String × Nat)} {v : List String} {acc : List (Asset × Nat)}
    (hinv : BfsInv s nbr root maxD vd ((c, d) :: qs) v acc)
    (hskip : c ∈ v ∨ maxD < d) :
    BfsInv s nbr root maxD vd qs v acc := by
  have hpw := List.pairwise_cons.mp hinv.queue_pw
  refine ⟨hinv.visited_reach, hinv.visited_min, hinv.visited_le, hinv.root_visited,
    ?_, ?_, hpw.2, ?_, ?_, ?_, hinv.acc_ids, hinv.acc_nodup⟩
  · exact fun e he => hinv.queue_reach e (List.mem_cons_of_mem _ he)
  · exact fun e he => hinv.queue_le e (List.mem_cons_of_mem _ he)
  · exact fun e1 h1 e2 h2 =>
      hinv.queue_spread e1 (List.mem_cons_of_mem _ h1) e2 (List.mem_cons_of_mem _ h2)
  · intro y hy hg x hx
    rcases hinv.closed y hy hg x hx with h | h
    · exact Or.inl h
    · rcases List.mem_cons.mp h with heq | hmem
      · rcases hskip with hcvv | hdgt
        · left
          have hxc : x = c := by
            have := congrArg Prod.fst heq
            simpa using this
          rw [hxc]
          exact hcvv
        · exfalso
          have hsnd : vd y + 1 = d := congrArg Prod.snd heq
          omega
      · exact Or.inr hmem
  · intro c0 d0 t hq x k hxk hkd
    have hd0mem : (c0, d0) ∈ qs := by
      rw [hq]
      exact List.mem_cons_self _ _
    have hd0ge : d ≤ d0 := hpw.1 (c0, d0) hd0mem
    by_cases hkltd : k < d
    · exact hinv.frontier c d qs rfl x k hxk hkltd
    · have hd0le : d0 ≤ d + 1 := by
        have := hinv.queue_spread (c0, d0) (List.mem_cons_of_mem _ hd0mem) (c, d)
          (List.mem_cons_self _ _)
        simpa using this
      have hkd2 : k = d := by omega
      have hd01 : d0 = d + 1 := by omega
      have hdle : d ≤ maxD := by
        have := hinv.queue_le (c0, d0) (List.mem_cons_of_mem _ hd0mem)
        simp at this
        omega
      have hqs1 : ∀ e ∈ qs, d + 1 ≤ e.2 := by
        intro e he
        have hmem2 : e ∈ (c0, d0) :: t := by
          rw [← hq]
          exact he
        rcases List.mem_cons.mp hmem2 with rfl | hm
        · simp
          omega
        · have := (List.pairwise_cons.mp (hq ▸ hpw.2)).1 e hm
          omega
      subst hkd2
      rcases layer_filled hinv hdle hqs1 x hxk with hxc | hxv
      · rcases hskip with hcvv | hdgt
        · rw [hxc]
          exact hcvv
        · omega
      · exact hxv

/-- Visiting a fresh dequeued entry within the depth bound preserves the
invariant: the id is marked visited at its depth, recorded unless it is the
root or has no asset row, and its unvisited neighbours are enqueued one
level deeper. -/
theorem BfsInv.visit {s : Store} {nbr : String → List String} {root : String}
    {maxD : Nat} {vd : String → Nat} {c : String} {d : Nat}
    {qs : List (String × Nat)} {v : List String} {acc : List (Asset × Nat)}
    (hinv : BfsInv s nbr root maxD vd ((c, d) :: qs) v acc)
    (hcv : c ∉ v) (hdle : d ≤ maxD) :
    BfsInv s nbr root maxD (fun z => if z = c then d else vd z)
      (qs ++ ((nbr c).filter (fun n => decide (n ∉ c :: v))).map (fun n => (n, d + 1)))
      (c :: v)
      (if c = root then acc
       else
         match getAsset s c with
         | some a => acc ++ [(a, d)]
         | none => acc) := by
  have hcnotroot : c ≠ root := fun h => hcv (h ▸ hinv.root_visited)
  have hcreach : c ∈ reachN nbr root d :=
    hinv.queue_reach (c, d) (List.mem_cons_self _ _)
  have hpw := List.pairwise_cons.mp hinv.queue_pw
  have hqs_ge : ∀ e ∈ qs, d ≤ e.2 := fun e he => hpw.1 e he
  have hqs_pw : List.Pairwise (fun e1 e2 => e1.2 ≤ e2.2) qs := hpw.2
  have hqs_le : ∀ e ∈ qs, e.2 ≤ d + 1 := fun e he => by
    have := hinv.queue_spread e (List.mem_cons_of_mem _ he) (c, d)
      (List.mem_cons_self _ _)
    simpa using this
  have hnews : ∀ e ∈ ((nbr c).filter (fun n => decide (n ∉ c :: v))).map
      (fun n => (n, d + 1)), e.2 = d + 1 ∧ e.1 ∈ nbr c ∧ e.1 ∉ c :: v := by
    intro e he
    rw [List.mem_map] at he
    obtain ⟨n, hn, rfl⟩ := he
    rw [List.mem_filter] at hn
    refine ⟨rfl, hn.1, ?_⟩
    simpa using hn.2
  have hqpw2 : List.Pairwise (fun e1 e2 => e1.2 ≤ e2.2)
      (qs ++ ((nbr c).filter (fun n => decide (n ∉ c :: v))).map (fun n => (n, d + 1))) := by
    rw [List.pairwise_append]
    refine ⟨hqs_pw, pairwise_snd_map_const _ _, ?_⟩
    intro e1 h1 e2 h2
    rw [(hnews e2 h2).1]
    exact hqs_le e1 h1
  refine ⟨?_, ?_, ?_, List.mem_cons_of_mem _ hinv.root_visited, ?_, ?_, hqpw2,
    ?_, ?_, ?_, ?_, ?_⟩
  · -- visited_reach
    intro x hx
    rcases List.mem_cons.mp hx with rfl | hxv
    · rw [if_pos rfl]
      exact hcreach
    · have hxnc : x ≠ c := fun h => hcv (h ▸ hxv)
      rw [if_neg hxnc]
      exact hinv.visited_reach x hxv
  · -- visited_min
    intro x hx k hk
    rcases List.mem_cons.mp hx with rfl | hxv
    · rw [if_pos rfl] at hk
      intro hmem
      exact hcv (hinv.frontier x d qs rfl x k hmem hk)
    · have hxnc : x ≠ c := fun h => hcv (h ▸ hxv)
      rw [if_neg hxnc] at hk
      exact hinv.visited_min x hxv k hk
  · -- visited_le
    intro x hx
    rcases List.mem_cons.mp hx with rfl | hxv
    · rw [if_pos rfl]
      exact hdle
    · have hxnc : x ≠ c := fun h => hcv (h ▸ hxv)
      rw [if_neg hxnc]
      exact hinv.visited_le x hxv
  · -- queue_reach
    intro e he
    rcases List.mem_append.mp he with hm | hm
    · exact hinv.queue_reach e (List.mem_cons_of_mem _ hm)
    · obtain ⟨h1, h2, _⟩ := hnews e hm
      rw [h1]
      exact mem_reachN_succ nbr root d hcreach h2
  · -- queue_le
    intro e he
    rcases List.mem_append.mp he with hm | hm
    · exact hinv.queue_le e (List.mem_cons_of_mem _ hm)
    · rw [(hnews e hm).1]
      omega
  · -- queue_spread
    intro e1 h1 e2 h2
    have hb1 : e1.2 ≤ d + 1 := by
      rcases List.mem_append.mp h1 with hm | hm
      · exact hqs_le e1 hm
      · rw [(hnews e1 hm).1]
    have hb2 : d ≤ e2.2 := by
      rcases List.mem_append.mp h2 with hm | hm
      · exact hqs_ge e2 hm
      · rw [(hnews e2 hm).1]
        omega
    omega
  · -- closed
    intro y hy hg x hx
    rcases List.mem_cons.mp hy with rfl | hyv
    · rw [if_pos rfl] at hg ⊢
      by_cases hxcv : x ∈ y :: v
      · exact Or.inl hxcv
      · right
        apply List.mem_append_right
        rw [List.mem_map]
        refine ⟨x, ?_, rfl⟩
        rw [List.mem_filter]
        refine ⟨hx, ?_⟩
        simpa using hxcv
    · have hync : y ≠ c := fun h => hcv (h ▸ hyv)
      rw [if_neg hync] at hg ⊢
      rcases hinv.closed y hyv hg x hx with h | h
      · exact Or.inl (List.mem_cons_of_mem _ h)
      · rcases List.mem_cons.mp h with heq | hm
        · left
          have hxc : x = c := by
            have := congrArg Prod.fst heq
            simpa using this
          rw [hxc]
          exact List.mem_cons_self _ _
        · exact Or.inr (List.mem_append_left _ hm)
  · -- frontier
    intro c0 d0 t hq x k hxk hkd
    have hd0mem : (c0, d0) ∈ qs ++
        ((nbr c).filter (fun n => decide (n ∉ c :: v))).map (fun n => (n, d + 1)) := by
      rw [hq]
      exact List.mem_cons_self _ _
    have hd0le : d0 ≤ d + 1 := by
      rcases List.mem_append.mp hd0mem with hm | hm
      · exact hqs_le _ hm
      · have := (hnews _ hm).1
        simp at this
        omega
    by_cases hkltd : k < d
    · exact List.mem_cons_of_mem _ (hinv.frontier c d qs rfl x k hxk hkltd)
    · have hkd2 : k = d := by omega
      subst hkd2
      have hd01 : d0 = k + 1 := by omega
      have hqs1 : ∀ e ∈ qs, k + 1 ≤ e.2 := by
        intro e he
        have hmem2 : e ∈ (c0, d0) :: t := by
          rw [← hq]
          exact List.mem_append_left _ he
        rcases List.mem_cons.mp hmem2 with rfl | hm
        · simp
          omega
        · have hpw3 := hq ▸ hqpw2
          have := (List.pairwise_cons.mp hpw3).1 e hm
          omega
      rcases layer_filled hinv hdle hqs1 x hxk with hxc | hxv
      · rw [hxc]
        exact List.mem_cons_self _ _
      · exact List.mem_cons_of_mem _ hxv
  · -- acc_ids
    have hold : ∀ e ∈ acc, e.1.id ∈ c :: v ∧ e.1.id ≠ root ∧
        (if e.1.id = c then d else vd e.1.id) = e.2 := by
      intro e he
      obtain ⟨h1, h2, h3⟩ := hinv.acc_ids e he
      have hne : e.1.id ≠ c := fun h => hcv (h ▸ h1)
      rw [if_neg hne]
      exact ⟨List.mem_cons_of_mem _ h1, h2, h3⟩
    by_cases hcr : c = root
    · rw [if_pos hcr]
      exact hold
    · rw [if_neg hcr]
      cases hga : getAsset s c with
      | none => exact hold
      | some a =>
        intro e he
        rcases List.mem_append.mp he with hm | hm
        · exact hold e hm
        · rw [List.mem_singleton] at hm
          subst hm
          have haid : a.id = c := getAsset_id hga
          refine ⟨?_, ?_, ?_⟩
          · rw [haid]
            exact List.mem_cons_self _ _
          · rw [haid]
            exact hcr
          · rw [haid, if_pos rfl]
  · -- acc_nodup
    by_cases hcr : c = root
    · rw [if_pos hcr]
      exact hinv.acc_nodup
    · rw [if_neg hcr]
      cases hga : getAsset s c with
      | none => exact hinv.acc_nodup
      | some a =>
        rw [List.map_append, List.nodup_append]
        refine ⟨hinv.acc_nodup, by simp, ?_⟩
        intro z hz1 hz2
        rw [List.mem_map] at hz1
        obtain ⟨e, he, rfl⟩ := hz1
        simp at hz2
        have haid : a.id = c := getAsset_id hga
        have := (hinv.acc_ids e he).1
        rw [hz2, haid] at this
        exact hcv this

/-- The result-list properties extracted from the invariant. -/
theorem post_of_inv {s : Store} {nbr : String → List String} {root : String}
    {maxD : Nat} {vd : String → Nat} {q : List (String × Nat)} {v : List String}
    {acc : List (Asset × Nat)} (hinv : BfsInv s nbr root maxD vd q v acc) :
    (∀ e ∈ acc, e.1.id ≠ root ∧ 0 < e.2 ∧ e.2 ≤ maxD ∧
       e.1.id ∈ reachN nbr root e.2 ∧
       ∀ k, k < e.2 → e.1.id ∉ reachN nbr root k) ∧
    (acc.map (fun e => e.1.id)).Nodup := by
  refine ⟨?_, hinv.acc_nodup⟩
  intro e he
  obtain ⟨hv, hnr, hvd⟩ := hinv.acc_ids e he
  have hre := hinv.visited_reach e.1.id hv
  rw [hvd] at hre
  have hmin : ∀ k, k < e.2 → e.1.id ∉ reachN nbr root k := by
    intro k hk
    refine hinv.visited_min e.1.id hv k ?_
    rw [hvd]
    exact hk
  have hle := hinv.visited_le e.1.id hv
  rw [hvd] at hle
  have hpos : 0 < e.2 := by
    rcases Nat.eq_zero_or_pos e.2 with h0 | hp
    · exfalso
      rw [h0, reachN, List.mem_singleton] at hre
      exact hnr hre
    · exact hp
  exact ⟨hnr, hpos, hle, hre, hmin⟩

/-- Fuel induction: from any state satisfying the invariant, the BFS loop
returns a result list whose entries are non-root ids recorded at their
exact (minimal) BFS depth, within the depth bound and without duplicates. -/
theorem bfsAux_post (s : Store) (nbr : String → List String) (root : String)
    (maxD : Nat) :
    ∀ (fuel : Nat) (q : List (String × Nat)) (v : List String)
      (acc : List (Asset × Nat)) (vd : String → Nat),
      BfsInv s nbr root maxD vd q v acc →
      (∀ e ∈ bfsAux s nbr root maxD fuel q v acc,
         e.1.id ≠ root ∧ 0 < e.2 ∧ e.2 ≤ maxD ∧
         e.1.id ∈ reachN nbr root e.2 ∧
         ∀ k, k < e.2 → e.1.id ∉ reachN nbr root k) ∧
      ((bfsAux s nbr root maxD fuel q v acc).map (fun e => e.1.id)).Nodup := by
  intro fuel
  induction fuel with
  | zero =>
    intro q v acc vd hinv
    rw [bfsAux]
    exact post_of_inv hinv
  | succ n ih =>
    intro q v acc vd hinv
    rcases q with _ | ⟨⟨c, d⟩, qs⟩
    · rw [bfsAux]
      exact post_of_inv hinv
    · rw [bfsAux]
      split
      · next hskip =>
        exact ih qs v acc vd (hinv.skip hskip)
      · next hns =>
        push_neg at hns
        exact ih _ _ _ (fun z => if z = c then d else vd z)
          (hinv.visit hns.1 (by omega))

/-- Running the BFS loop from its initial state (the source functions start
with the queue `[(root, 0)]`, empty visited set and empty result). -/
theorem bfsRun_post (s : Store) (nbr : String → List String) (root : String)
    (maxD : Nat) :
    (∀ e ∈ bfsAux s nbr root maxD (bfsFuel s) [(root, 0)] [] [],
       e.1.id ≠ root ∧ 0 < e.2 ∧ e.2 ≤ maxD ∧
       e.1.id ∈ reachN nbr root e.2 ∧
       ∀ k, k < e.2 → e.1.id ∉ reachN nbr root k) ∧
    ((bfsAux s nbr root maxD (bfsFuel s) [(root, 0)] [] []).map
      (fun e => e.1.id)).Nodup := by
  rw [bfsFuel, bfsAux]
  rw [if_neg (by simp)]
  refine bfsAux_post s nbr root maxD _ _ _ _ (fun _ => 0) ?_
  refine ⟨?_, ?_, ?_, List.mem_cons_self _ _, ?_, ?_, ?_, ?_, ?_, ?_, ?_, ?_⟩
  · intro x hx
    rcases List.mem_cons.mp hx with rfl | hxv
    · rw [reachN]
      exact List.mem_singleton.mpr rfl
    · exact absurd hxv (List.not_mem_nil x)
  · intro x hx k hk
    exact absurd hk (Nat.not_lt_zero k)
  · intro x hx
    exact Nat.zero_le maxD
  · intro e he
    rw [List.nil_append] at he
    rw [List.mem_map] at he
    obtain ⟨n, hn, rfl⟩ := he
    rw [List.mem_filter] at hn
    exact mem_reachN_succ nbr root 0 (by rw [reachN]; exact List.mem_singleton.mpr rfl)
      hn.1
  · intro e he
    rw [List.nil_append, List.mem_map] at he
    obtain ⟨n, hn, rfl⟩ := he
    omega
  · rw [List.nil_append]
    exact pairwise_snd_map_const _ _
  · intro e1 h1 e2 h2
    rw [List.nil_append, List.mem_map] at h1 h2
    obtain ⟨n1, _, rfl⟩ := h1
    obtain ⟨n2, _, rfl⟩ := h2
    omega
  · intro y hy hg x hx
    rcases List.mem_cons.mp hy with rfl | hyv
    · by_cases hxv : x ∈ y :: ([] : List String)
      · exact Or.inl hxv
      · right
        rw [List.nil_append, List.mem_map]
        refine ⟨x, ?_, rfl⟩
        rw [List.mem_filter]
        refine ⟨hx, ?_⟩
        simpa using hxv
    · exact absurd hyv (List.not_mem_nil y)
  · intro c0 d0 t hq x k hxk hkd
    rw [List.nil_append] at hq
    have hd0 : (c0, d0) ∈ ((nbr root).filter
        (fun n => decide (n ∉ root :: ([] : List String)))).map (fun n => (n, 0 + 1)) := by
      rw [hq]
      exact List.mem_cons_self _ _
    rw [List.mem_map] at hd0
    obtain ⟨n, _, heq⟩ := hd0
    have hd01 : (0 : Nat) + 1 = d0 := congrArg Prod.snd heq
    have hk0 : k = 0 := by omega
    rw [hk0, reachN, List.mem_singleton] at hxk
    rw [hxk]
    exact List.mem_cons_self _ _
  · intro e he
    rw [if_pos rfl] at he
    exact absurd he (List.not_mem_nil e)
  · rw [if_pos rfl]
    simp

/-- C1: for every graph, root, relationship-type filter and depth bound, the
bounded BFS traversals (`traverse_downstream` and `traverse_upstream`) never
contain the root asset, contain each asset id at most once, and record each
id at the shallowest depth at which BFS reaches it: the id is reachable by
an edge path of exactly the recorded length and by no shorter path. -/
theorem claim1_traversal_invariants (s : Store) (root : String) (types : List String)
    (maxD : Nat) :
    ((∀ e ∈ traverse_downstream s root types maxD,
        e.1.id ≠ root ∧ e.1.id ∈ reachN (downNbrs s types) root e.2 ∧
          ∀ k, k < e.2 → e.1.id ∉ reachN (downNbrs s types) root k) ∧
      ((traverse_downstream s root types maxD).map (fun e => e.1.id)).Nodup) ∧
    ((∀ e ∈ traverse_upstream s root types maxD,
        e.1.id ≠ root ∧ e.1.id ∈ reachN (upNbrs s types) root e.2 ∧
          ∀ k, k < e.2 → e.1.id ∉ reachN (upNbrs s types) root k) ∧
      ((traverse_upstream s root types maxD).map (fun e => e.1.id)).Nodup) := by
  have hd := bfsRun_post s (downNbrs s types) root maxD
  have hu := bfsRun_post s (upNbrs s types) root maxD
  exact ⟨⟨fun e he => ⟨(hd.1 e he).1, (hd.1 e he).2.2.2.1, (hd.1 e he).2.2.2.2⟩, hd.2⟩,
         ⟨fun e he => ⟨(hu.1 e he).1, (hu.1 e he).2.2.2.1, (hu.1 e he).2.2.2.2⟩, hu.2⟩⟩

/-- Witness for C1: the cycle store at a concrete traversal entry. -/
theorem claim1_witness :
    ((aB, 1) ∈ traverse_downstream cycleStore "A" [] 5) ∧
    aB.id ≠ "A" ∧ aB.id ∈ reachN (downNbrs cycleStore []) "A" 1 ∧
    ∀ k, k < 1 → aB.id ∉ reachN (downNbrs cycleStore []) "A" k :=
  ⟨by decide,
   (claim1_traversal_invariants cycleStore "A" [] 5).1.1 (aB, 1) (by decide)⟩

/-- C2: every entry returned by a bounded traversal has depth strictly
positive and at most the caller-supplied maximum, and an entry enqueued at
depth `maxDepth + 1` is discarded when dequeued — the loop drops it without
recording or expanding it. -/
theorem claim2_depth_bounds (s : Store) (root : String) (types : List String)
    (maxD : Nat) :
    (∀ e ∈ traverse_downstream s root types maxD, 0 < e.2 ∧ e.2 ≤ maxD) ∧
    (∀ e ∈ traverse_upstream s root types maxD, 0 < e.2 ∧ e.2 ≤ maxD) ∧
    (∀ (nbr : String → List String) (fuel : Nat) (x : String)
       (qs : List (String × Nat)) (v : List String) (acc : List (Asset × Nat)),
       bfsAux s nbr root maxD (fuel + 1) ((x, maxD + 1) :: qs) v acc =
         bfsAux s nbr root maxD fuel qs v acc) := by
  have hd := bfsRun_post s (downNbrs s types) root maxD
  have hu := bfsRun_post s (upNbrs s types) root maxD
  refine ⟨fun e he => ⟨(hd.1 e he).2.1, (hd.1 e he).2.2.1⟩,
          fun e he => ⟨(hu.1 e he).2.1, (hu.1 e he).2.2.1⟩, ?_⟩
  intro nbr fuel x qs v acc
  rw [bfsAux]
  rw [if_pos (Or.inr (by omega))]

/-- Witness for C2: a concrete upstream traversal entry of the cycle store. -/
theorem claim2_witness :
    ((aC, 1) ∈ traverse_upstream cycleStore "A" [] 5) ∧ 0 < 1 ∧ 1 ≤ 5 :=
  ⟨by decide, (claim2_depth_bounds cycleStore "A" [] 5).2.1 (aC, 1) (by decide)⟩
